import Mathlib

/-! NAJD theme: interaction and intent engine.

A shallow embedding of the behavioural controllers of
`assets/js/conversion-engine.js`, `assets/js/app.js` and
`assets/js/performance.js`, followed by the properties proved about them.

Conventions of the embedding:

* DOM elements are records holding exactly the fields the controllers read
  or write; event listeners become functions from the state before the
  event to the state after it.
* Timers created with `setTimeout` are explicit records (handle, due time)
  kept in a pending list; the event loop is a function that advances the
  clock and runs the callbacks that have become due.
* JavaScript numbers are given by their exact value, with `NaN` and the
  infinities as separate values where the code can produce them; the
  arithmetic of the scroll percentage rounds every result to the nearest
  double.
-/

namespace JS

/-- The result of `ToBoolean` on what `getItem` or a `dataset` read returns:
a missing value and the empty string are falsy. -/
def truthy : Option String → Bool
  | none => false
  | some s => s != ""

/-- The white space and line terminators that `parseInt` skips. -/
def isWhiteSpace (c : Char) : Bool :=
  let n := c.toNat
  n == 0x09 || n == 0x0A || n == 0x0B || n == 0x0C || n == 0x0D || n == 0x20 ||
  n == 0xA0 || n == 0x1680 || (0x2000 ≤ n && n ≤ 0x200A) || n == 0x2028 ||
  n == 0x2029 || n == 0x202F || n == 0x205F || n == 0x3000 || n == 0xFEFF

/-- The value of a character as a digit, for radices up to 16. -/
def digitValue (c : Char) : Option Nat :=
  if '0' ≤ c ∧ c ≤ '9' then some (c.toNat - '0'.toNat)
  else if 'a' ≤ c ∧ c ≤ 'f' then some (c.toNat - 'a'.toNat + 10)
  else if 'A' ≤ c ∧ c ≤ 'F' then some (c.toNat - 'A'.toNat + 10)
  else none

/-- Reads the longest run of radix digits at the head of the input; `none`
when that run is empty. -/
def readDigits (radix : Nat) : List Char → Option Nat → Option Nat
  | [], acc => acc
  | c :: cs, acc =>
    match digitValue c with
    | some d =>
      if d < radix then readDigits radix cs (some (acc.getD 0 * radix + d)) else acc
    | none => acc

/-- The function `parseInt(string)` with no radix argument: leading white
space is skipped, a sign is read, a `0x` or `0X` mark selects radix 16, and
the longest run of digits is converted. `none` stands for `NaN`. The value is
kept exact (the rounding of integers beyond 2^53 is not modelled). -/
def parseInt (s : String) : Option Int :=
  let cs := s.toList.dropWhile isWhiteSpace
  let (neg, cs) :=
    match cs with
    | '-' :: r => (true, r)
    | '+' :: r => (false, r)
    | r => (false, r)
  let (radix, cs) :=
    match cs with
    | '0' :: 'x' :: r => (16, r)
    | '0' :: 'X' :: r => (16, r)
    | r => (10, r)
  match readDigits radix cs none with
  | none => none
  | some n => some (if neg then -(n : Int) else (n : Int))

/-- The method `classList.add(token)`: the token is appended unless present. -/
def classListAdd (classes : List String) (token : String) : List String :=
  if token ∈ classes then classes else classes ++ [token]

end JS

namespace ConversionEngine

/-! ## Exit intent (`initExitIntent`, `triggerExitIntentModal`) -/

/-- The session store: an association list from keys to values. -/
abbrev Storage := List (String × String)

/-- The method `sessionStorage.getItem(key)`; `none` stands for `null`. -/
def Storage.getItem (st : Storage) (key : String) : Option String :=
  st.lookup key

/-- The method `sessionStorage.setItem(key, value)`. -/
def Storage.setItem (st : Storage) (key value : String) : Storage :=
  (key, value) :: st.filter (fun kv => kv.1 != key)

/-- The element with id `exit-intent-modal`: its `style.display` and classes. -/
structure Modal where
  display : String
  classList : List String
  deriving DecidableEq, Repr

/-- What the exit-intent controller reads and writes. -/
structure ExitPage where
  /-- The session store. -/
  sessionStorage : Storage
  /-- The result of `document.getElementById` for the modal, `none` when absent. -/
  modal : Option Modal
  /-- How many times `triggerExitIntentModal` has run. -/
  triggerCalls : Nat
  deriving DecidableEq, Repr

/-- The method `triggerExitIntentModal`: records the flag, then shows the
modal when the document has one. -/
def triggerExitIntentModal (p : ExitPage) : ExitPage :=
  { sessionStorage := p.sessionStorage.setItem "exit_intent_shown" "true"
    modal := p.modal.map fun m =>
      { display := "block", classList := JS.classListAdd m.classList "animate-pop-in" }
    triggerCalls := p.triggerCalls + 1 }

/-- The `mouseleave` listener installed on the document by `initExitIntent`,
applied to an event with the given `clientY` (a number, possibly fractional). -/
def onDocumentMouseLeave (p : ExitPage) (clientY : ℚ) : ExitPage :=
  if decide (clientY < 0) && !JS.truthy (p.sessionStorage.getItem "exit_intent_shown") then
    triggerExitIntentModal p
  else p

/-- A sequence of `mouseleave` events, given by their `clientY` values. -/
def runMouseLeaves (p : ExitPage) (events : List ℚ) : ExitPage :=
  events.foldl onDocumentMouseLeave p

/-! ## Stock ticker (`initScarcityLogic`) -/

/-- A `.scarcity-ticker` element together with the closure variable `stock`
of its interval callback. -/
structure Ticker where
  /-- The closure variable `stock`; `none` stands for `NaN`. -/
  stock : Option Int
  /-- The text of the element. -/
  innerText : String
  /-- The classes of the element. -/
  classList : List String
  /-- Pending 500 ms timers that will remove `pulse-red`. -/
  pulseRemovals : Nat
  deriving DecidableEq, Repr

/-- The initial value of `stock`: `parseInt(ticker.dataset.stock || 10)`,
where the attribute is `none` when `data-stock` is absent. -/
def initialStock (dataStock : Option String) : Option Int :=
  if JS.truthy dataStock then JS.parseInt (dataStock.getD "") else some 10

/-- The element as `initScarcityLogic` finds it. -/
def initTicker (dataStock : Option String) (innerText : String)
    (classList : List String) : Ticker :=
  { stock := initialStock dataStock, innerText := innerText, classList := classList,
    pulseRemovals := 0 }

/-- The threshold that `Math.random()` is compared with. -/
def decrementThreshold : ℚ := 7 / 10

/-- The comparison `stock > 2`, false when `stock` is `NaN`. -/
def stockAboveFloor : Option Int → Bool
  | none => false
  | some n => 2 < n

/-- One run of the interval callback, with `draw` the value of
`Math.random()` for this run. -/
def stockTick (t : Ticker) (draw : ℚ) : Ticker :=
  if stockAboveFloor t.stock && decide (decrementThreshold < draw) then
    let stock := t.stock.map (· - 1)
    { stock := stock
      innerText := (match stock with
        | some n => toString n
        | none => "NaN") ++ " items left"
      classList := JS.classListAdd t.classList "pulse-red"
      pulseRemovals := t.pulseRemovals + 1 }
  else t

/-- A sequence of ticks, given by their random draws. -/
def runStockTicks (t : Ticker) (draws : List ℚ) : Ticker :=
  draws.foldl stockTick t

/-! ## CTA engine (`initCTAEngine`, `setCTAState`, `handleCTAClick`) -/

/-- A `.cta-button` element with the timers its click listener has started. -/
structure CTA where
  /-- The attribute `data-state`, `none` while the element has none. -/
  dataState : Option String
  /-- The current time in milliseconds. -/
  now : Nat
  /-- Due times of the pending timers started by `handleCTAClick`, oldest first. -/
  successDue : List Nat
  deriving DecidableEq, Repr

/-- The method `setCTAState(element, state)`. -/
def setCTAState (c : CTA) (state : String) : CTA :=
  { c with dataState := some state }

/-- The `mouseenter` listener of a CTA. -/
def onMouseEnter (c : CTA) : CTA := setCTAState c "aroused"

/-- The `mouseleave` listener of a CTA. -/
def onMouseLeave (c : CTA) : CTA := setCTAState c "idle"

/-- The method `handleCTAClick`: the state becomes `loading` and a timer is
started that will set `success` 500 ms later. -/
def handleCTAClick (c : CTA) : CTA :=
  let c := setCTAState c "loading"
  { c with successDue := c.successDue ++ [c.now + 500] }

/-- The event loop reaching time `t`: every timer that is due by then runs its
callback, and the clock moves to `t` (it never moves back). -/
def ctaAdvance (c : CTA) (t : Nat) : CTA :=
  let fired := (c.successDue.filter (· ≤ t)).foldl (fun c _ => setCTAState c "success") c
  { fired with successDue := c.successDue.filter (fun d => ¬ d ≤ t), now := max c.now t }

/-! ## Countdown (`initCountdowns`) -/

/-- The method `String.prototype.padStart` with a one-character fill. -/
def padStart (s : String) (targetLength : Nat) (fill : Char) : String :=
  String.mk (List.replicate (targetLength - s.length) fill) ++ s

/-- A `.countdown-component` element. Each unit field is the text of the child
selected by `[data-unit="..."]`, `none` when the element has no such child. -/
structure Countdown where
  days : Option String
  hours : Option String
  minutes : Option String
  seconds : Option String
  /-- The markup last assigned to `innerHTML`, `none` while the original
  children are in place. -/
  innerHTML : Option String
  deriving DecidableEq, Repr

/-- The markup of the expired state, as the source spells it. -/
def expiredMarkup : String := "<div class=\"expired\">Exipred</div>"

/-- The value of `Math.floor(distance / (1000 * 60 * 60 * 24))`. -/
def daysOf (distance : Int) : Int := Int.fdiv distance (1000 * 60 * 60 * 24)

/-- The value of `Math.floor((distance % (1000 * 60 * 60 * 24)) / (1000 * 60 * 60))`. -/
def hoursOf (distance : Int) : Int :=
  Int.fdiv (Int.tmod distance (1000 * 60 * 60 * 24)) (1000 * 60 * 60)

/-- The value of `Math.floor((distance % (1000 * 60 * 60)) / (1000 * 60))`. -/
def minutesOf (distance : Int) : Int :=
  Int.fdiv (Int.tmod distance (1000 * 60 * 60)) (1000 * 60)

/-- The value of `Math.floor((distance % (1000 * 60)) / 1000)`. -/
def secondsOf (distance : Int) : Int := Int.fdiv (Int.tmod distance (1000 * 60)) 1000

/-- The text `String(value).padStart(2, '0')`. -/
def renderUnit (value : Int) : String := padStart (toString value) 2 '0'

/-- The four assignments that end a tick, in source order. An assignment
through a missing child throws; the flag of the result tells whether that
happened, and the assignments made before it stay. -/
def writeUnits (c : Countdown) (d h m s : String) : Countdown × Bool :=
  if c.days.isNone then (c, true) else
  let c := { c with days := some d }
  if c.hours.isNone then (c, true) else
  let c := { c with hours := some h }
  if c.minutes.isNone then (c, true) else
  let c := { c with minutes := some m }
  if c.seconds.isNone then (c, true) else
  ({ c with seconds := some s }, false)

/-- One run of the interval callback of a countdown, at clock value `now`.
`endDate` is `new Date(timer.dataset.endDate).getTime()`, with `none` for
`NaN`. The second component tells whether the callback threw. -/
def countdownTick (endDate : Option Int) (c : Countdown) (now : Int) : Countdown × Bool :=
  match endDate with
  | none => writeUnits c "NaN" "NaN" "NaN" "NaN"
  | some e =>
    let distance := e - now
    if distance < 0 then
      ({ days := none, hours := none, minutes := none, seconds := none,
         innerHTML := some expiredMarkup }, false)
    else
      writeUnits c (renderUnit (daysOf distance)) (renderUnit (hoursOf distance))
        (renderUnit (minutesOf distance)) (renderUnit (secondsOf distance))

/-- The ticks of one countdown at the given clock values, each run on the
element the previous one left. -/
def runCountdown (endDate : Option Int) (c : Countdown) (clock : List Int) : Countdown :=
  clock.foldl (fun c now => (countdownTick endDate c now).1) c

/-! ## Scroll progress (`initProgressBars`) -/

/-- A JavaScript number: a finite double given by its exact value, `NaN`, or
an infinity. -/
inductive Num where
  | fin (q : ℚ)
  | nan
  | posInf
  | negInf
  deriving DecidableEq

/-- The integer nearest to a rational, a tie going to the even neighbour. -/
def roundHalfEven (x : ℚ) : Int :=
  if x - ⌊x⌋ < 1 / 2 then ⌊x⌋
  else if 1 / 2 < x - ⌊x⌋ then ⌊x⌋ + 1
  else if ⌊x⌋ % 2 = 0 then ⌊x⌋ else ⌊x⌋ + 1

/-- The exponent of the spacing of the doubles around `x`: 52 below the
binary exponent of `x`, and that of the subnormal range for smaller values. -/
def ulpExp (x : ℚ) : Int := max (Int.log 2 |x|) (-1022) - 52

/-- The multiple of the spacing at `x` that is nearest to `x`, ties to the
even multiple: the IEEE 754 binary64 rounding of `x` before the overflow test. -/
def nearest (x : ℚ) : ℚ := (roundHalfEven (x / 2 ^ ulpExp x) : ℚ) * 2 ^ ulpExp x

/-- The double that an arithmetic operation returns when its exact result is
`x`: the nearest double, or an infinity when that is out of range. The sign
of a zero result is not kept. -/
def Num.ofReal (x : ℚ) : Num :=
  if 2 ^ 1024 ≤ |nearest x| then (if 0 < x then .posInf else .negInf)
  else .fin (nearest x)

/-- The difference `a - b` of two finite numbers. -/
def Num.sub (a b : ℚ) : Num := Num.ofReal (a - b)

/-- The quotient `a / b` of a finite number by a number. -/
def Num.div (a : ℚ) (b : Num) : Num :=
  match b with
  | .fin d =>
    if d = 0 then (if a = 0 then .nan else if 0 < a then .posInf else .negInf)
    else Num.ofReal (a / d)
  | .nan => .nan
  | .posInf => .fin 0
  | .negInf => .fin 0

/-- The product of a number with a positive finite factor. -/
def Num.scale (x : Num) (k : ℚ) : Num :=
  match x with
  | .fin q => Num.ofReal (q * k)
  | y => y

/-- The values of the DOM attributes `scrollHeight` and `innerHeight`, which
are 32-bit signed integers. -/
structure Long where
  val : Int
  lower : -2147483648 ≤ val
  upper : val ≤ 2147483647

/-- The text of `Math.round(x)`: the integer nearest to the double `x`, halves
going up, which is `floor(x + 1/2)` taken exactly. Integers of 22 digits or
more, which the source language prints with an exponent, are not modelled. -/
def Num.roundText : Num → String
  | .fin q => toString ⌊q + 1 / 2⌋
  | .nan => "NaN"
  | .posInf => "Infinity"
  | .negInf => "-Infinity"

/-- A `.progress-indicator` element enrolled with `data-scroll-spy="true"`. -/
structure ProgressBar where
  /-- Whether the element has a `.progress-fill` child. -/
  hasFill : Bool
  /-- The percentage last assigned to the width of the fill (the number in
  front of the percent sign), `none` before the first assignment. -/
  fillWidth : Option Num
  /-- The text of the `.percentage` child, `none` when there is no such child. -/
  label : Option String
  deriving DecidableEq

/-- The expression `(window.scrollY / (document.body.scrollHeight - window.innerHeight)) * 100`,
each of its three operations giving a double. -/
def scrollPercent (scrollY scrollHeight innerHeight : ℚ) : Num :=
  (Num.div scrollY (Num.sub scrollHeight innerHeight)).scale 100

/-- The loop `bars.forEach(...)` of the scroll listener. A bar without a fill
makes the callback throw, which ends the loop; the flag tells whether it did. -/
def updateBars (percent : Num) : List ProgressBar → List ProgressBar × Bool
  | [] => ([], false)
  | b :: bs =>
    if b.hasFill then
      let b := { b with fillWidth := some percent
                        label := b.label.map fun _ => percent.roundText ++ "%" }
      let rest := updateBars percent bs
      (b :: rest.1, rest.2)
    else (b :: bs, true)

/-- The scroll listener, which `initProgressBars` installs only when at least
one bar is enrolled. -/
def onScroll (bars : List ProgressBar) (scrollY scrollHeight innerHeight : ℚ) :
    List ProgressBar × Bool :=
  if bars.length = 0 then (bars, false)
  else updateBars (scrollPercent scrollY scrollHeight innerHeight) bars

end ConversionEngine

namespace NajdCampaignOS

/-! ## Decision moment detection (`initDecisionDetection`, `startDwellTimer`,
`clearDwellTimer`, `triggerDecisionIntervention`) -/

/-- A timer created by `setTimeout`: the handle returned and the due time. -/
structure Timeout where
  id : Nat
  due : Nat
  deriving DecidableEq, Repr

/-- A `.decision-zone` element, with the part of the event loop that concerns it. -/
structure Zone where
  /-- The property `target.dwellTimer`, `none` while undefined. -/
  dwellTimer : Option Nat
  /-- The classes of the element. -/
  classList : List String
  /-- The current time in milliseconds. -/
  now : Nat
  /-- The last handle returned by `setTimeout`; handles are positive and increase. -/
  lastId : Nat
  /-- The pending timers whose callback targets this element, oldest first. -/
  pending : List Timeout
  /-- The times at which `triggerDecisionIntervention` ran for this element. -/
  interventions : List Nat
  deriving DecidableEq, Repr

/-- The method `triggerDecisionIntervention(target)`. -/
def triggerDecisionIntervention (z : Zone) : Zone :=
  { z with classList := JS.classListAdd z.classList "highlight-decision"
           interventions := z.interventions ++ [z.now] }

/-- The method `startDwellTimer(target)`: a new 3000 ms timer is created and
its handle is stored in `target.dwellTimer`, over whatever was there. -/
def startDwellTimer (z : Zone) : Zone :=
  { z with dwellTimer := some (z.lastId + 1)
           lastId := z.lastId + 1
           pending := z.pending ++ [⟨z.lastId + 1, z.now + 3000⟩] }

/-- The function `clearTimeout(id)`. -/
def clearTimeout (z : Zone) (id : Nat) : Zone :=
  { z with pending := z.pending.filter fun t => t.id != id }

/-- The method `clearDwellTimer(target)`: the stored handle, when truthy, is
cleared. -/
def clearDwellTimer (z : Zone) : Zone :=
  match z.dwellTimer with
  | some id => if id != 0 then clearTimeout z id else z
  | none => z

/-- The observer callback for one entry about this element. -/
def observerCallback (z : Zone) (isIntersecting : Bool) : Zone :=
  if isIntersecting then startDwellTimer z else clearDwellTimer z

/-- The callback of a dwell timer, run when the timer is due. -/
def runTimeout (z : Zone) (t : Timeout) : Zone :=
  triggerDecisionIntervention { z with now := max z.now t.due }

/-- The event loop reaching time `t`: the pending timers due by then run in
the order of their due times (creation order among equal ones) and leave the
pending list; the clock moves to `t` and never moves back. -/
def advance (z : Zone) (t : Nat) : Zone :=
  let due := (z.pending.filter fun x => x.due ≤ t).insertionSort fun a b => a.due ≤ b.due
  let z1 := due.foldl runTimeout z
  { z1 with pending := z.pending.filter (fun x => ¬ x.due ≤ t), now := max z1.now t }

/-- What happens to a decision zone: a visibility notification at a given
time, or time passing up to a given instant. -/
inductive ZoneEvent where
  | visibility (time : Nat) (isIntersecting : Bool)
  | elapse (time : Nat)
  deriving DecidableEq, Repr

/-- One event: the timers due by its time run first, then the notification,
if it is one, reaches the observer callback. -/
def step (z : Zone) : ZoneEvent → Zone
  | .visibility time isIntersecting => observerCallback (advance z time) isIntersecting
  | .elapse time => advance z time

/-- A sequence of events on one decision zone. -/
def run (z : Zone) (events : List ZoneEvent) : Zone :=
  events.foldl step z

/-- A decision zone at page load: no handle stored, no timer pending. -/
def freshZone (classList : List String) : Zone :=
  { dwellTimer := none, classList := classList, now := 0, lastId := 0, pending := [],
    interventions := [] }

end NajdCampaignOS

namespace PerformanceManager

/-! ## Lazy loading (`initLazyLoading`, `loadComponent`) -/

/-- An intersection observer entry; elements are named by numbers. -/
structure Entry where
  target : Nat
  isIntersecting : Bool
  deriving DecidableEq, Repr

/-- The lazy-load observer and what `loadComponent` has done. -/
structure LazyLoader where
  /-- The elements the observer currently observes. -/
  observed : List Nat
  /-- The targets of the calls of `loadComponent`, in order. -/
  loadCalls : List Nat
  /-- The elements carrying the class `loaded`. -/
  loaded : List Nat
  deriving DecidableEq, Repr

/-- The method `observer.observe(target)`; observing a target twice has no
further effect. -/
def observe (s : LazyLoader) (el : Nat) : LazyLoader :=
  if el ∈ s.observed then s else { s with observed := s.observed ++ [el] }

/-- The method `observer.unobserve(target)`. -/
def unobserve (s : LazyLoader) (el : Nat) : LazyLoader :=
  { s with observed := s.observed.filter fun x => x != el }

/-- The method `loadComponent(target)`. -/
def loadComponent (s : LazyLoader) (el : Nat) : LazyLoader :=
  { s with loadCalls := s.loadCalls ++ [el]
           loaded := if el ∈ s.loaded then s.loaded else s.loaded ++ [el] }

/-- The observer callback of `initLazyLoading`. -/
def observerCallback (s : LazyLoader) (entries : List Entry) : LazyLoader :=
  entries.foldl
    (fun s entry => if entry.isIntersecting then unobserve (loadComponent s entry.target) entry.target
      else s) s

/-- The method `initLazyLoading`, given the elements matching
`[data-lazy-component]` and those that carry the class `loaded` already. -/
def initLazyLoading (triggers loaded : List Nat) : LazyLoader :=
  triggers.foldl observe { observed := [], loadCalls := [], loaded := loaded }

/-- One visibility notification from the platform: the observer reports only
on the elements it observes at that moment, each report reaching the callback
as its own batch. -/
def notify (s : LazyLoader) (entry : Entry) : LazyLoader :=
  if entry.target ∈ s.observed then observerCallback s [entry] else s

/-- A sequence of visibility notifications. -/
def runNotifications (s : LazyLoader) (entries : List Entry) : LazyLoader :=
  entries.foldl notify s

/-- The element is observed and `loadComponent` has not run for it. -/
def Waiting (s : LazyLoader) (el : Nat) : Prop :=
  el ∈ s.observed ∧ s.loadCalls.count el = 0

/-- The element is no longer observed and `loadComponent` has run once for it. -/
def Done (s : LazyLoader) (el : Nat) : Prop :=
  el ∉ s.observed ∧ s.loadCalls.count el = 1

end PerformanceManager

/-! # Properties -/

namespace ConversionEngine

/-! ## Exit intent -/

theorem getItem_setItem (st : Storage) (key value : String) :
    (st.setItem key value).getItem key = some value := by
  simp [Storage.getItem, Storage.setItem, List.lookup]

theorem trigger_flag (p : ExitPage) :
    (triggerExitIntentModal p).sessionStorage.getItem "exit_intent_shown" = some "true" := by
  simp [triggerExitIntentModal, getItem_setItem]

theorem mouseLeave_of_shown (p : ExitPage) (y : ℚ)
    (h : JS.truthy (p.sessionStorage.getItem "exit_intent_shown") = true) :
    onDocumentMouseLeave p y = p := by
  simp [onDocumentMouseLeave, h]

theorem mouseLeave_of_nonneg (p : ExitPage) (y : ℚ) (h : ¬ y < 0) :
    onDocumentMouseLeave p y = p := by
  simp [onDocumentMouseLeave, h]

theorem mouseLeave_of_qualifying (p : ExitPage) (y : ℚ) (hy : y < 0)
    (h : JS.truthy (p.sessionStorage.getItem "exit_intent_shown") = false) :
    onDocumentMouseLeave p y = triggerExitIntentModal p := by
  simp [onDocumentMouseLeave, h, hy]

theorem run_of_shown (events : List ℚ) (p : ExitPage)
    (h : JS.truthy (p.sessionStorage.getItem "exit_intent_shown") = true) :
    runMouseLeaves p events = p := by
  induction events with
  | nil => rfl
  | cons y ys ih =>
    show runMouseLeaves (onDocumentMouseLeave p y) ys = p
    rw [mouseLeave_of_shown p y h]
    exact ih

theorem run_of_nonqualifying (events : List ℚ) (p : ExitPage)
    (h : ∀ y ∈ events, ¬ y < 0) : runMouseLeaves p events = p := by
  induction events with
  | nil => rfl
  | cons y ys ih =>
    show runMouseLeaves (onDocumentMouseLeave p y) ys = p
    rw [mouseLeave_of_nonneg p y (h y (List.mem_cons_self _ _))]
    exact ih fun z hz => h z (List.mem_cons_of_mem _ hz)

theorem runMouseLeaves_append (p : ExitPage) (xs ys : List ℚ) :
    runMouseLeaves p (xs ++ ys) = runMouseLeaves (runMouseLeaves p xs) ys := by
  simp [runMouseLeaves, List.foldl_append]

theorem run_calls_le (events : List ℚ) (p : ExitPage) :
    (runMouseLeaves p events).triggerCalls ≤ p.triggerCalls + 1 := by
  induction events generalizing p with
  | nil => exact Nat.le_succ _
  | cons y ys ih =>
    show (runMouseLeaves (onDocumentMouseLeave p y) ys).triggerCalls ≤ _
    by_cases hq : y < 0 ∧ JS.truthy (p.sessionStorage.getItem "exit_intent_shown") = false
    · rw [mouseLeave_of_qualifying p y hq.1 hq.2,
        run_of_shown ys _ (by rw [trigger_flag]; rfl)]
      simp [triggerExitIntentModal]
    · have : onDocumentMouseLeave p y = p := by
        by_cases hy : y < 0
        · exact mouseLeave_of_shown p y (by
            cases hb : JS.truthy (p.sessionStorage.getItem "exit_intent_shown")
            · exact absurd ⟨hy, hb⟩ hq
            · rfl)
        · exact mouseLeave_of_nonneg p y hy
      rw [this]
      exact ih p

/-- C1: over any sequence of document mouseleave events the exit-intent modal
is requested at most once; and when the flag `exit_intent_shown` is unset at
the start and the sequence has an event with `clientY < 0`, the request is
made exactly once, by the first such event, which also sets the flag. -/
theorem exit_intent_at_most_once (p : ExitPage) (events : List ℚ) :
    (runMouseLeaves p events).triggerCalls ≤ p.triggerCalls + 1 ∧
    (p.sessionStorage.getItem "exit_intent_shown" = none →
      ∀ (before : List ℚ) (y : ℚ) (after : List ℚ),
        events = before ++ y :: after → (∀ z ∈ before, ¬ z < 0) → y < 0 →
        (runMouseLeaves p before).triggerCalls = p.triggerCalls ∧
        (runMouseLeaves p (before ++ [y])).triggerCalls = p.triggerCalls + 1 ∧
        (runMouseLeaves p (before ++ [y])).sessionStorage.getItem "exit_intent_shown"
          = some "true" ∧
        (runMouseLeaves p events).triggerCalls = p.triggerCalls + 1) := by
  refine ⟨run_calls_le events p, ?_⟩
  intro hunset before y after hev hbefore hy
  have hb : runMouseLeaves p before = p := run_of_nonqualifying before p hbefore
  have hstep : runMouseLeaves p (before ++ [y]) = triggerExitIntentModal p := by
    rw [runMouseLeaves_append, hb]
    show onDocumentMouseLeave p y = _
    exact mouseLeave_of_qualifying p y hy (by rw [hunset]; rfl)
  have hall : runMouseLeaves p events = triggerExitIntentModal p := by
    have : events = (before ++ [y]) ++ after := by simp [hev]
    rw [this, runMouseLeaves_append, hstep]
    exact run_of_shown after _ (by rw [trigger_flag]; rfl)
  refine ⟨by rw [hb], ?_, ?_, ?_⟩
  · rw [hstep]; rfl
  · rw [hstep]; exact trigger_flag p
  · rw [hall]; rfl

/-- The scenario of C1: five qualifying events in a row on a fresh session. -/
theorem exit_intent_at_most_once_witness :
    (runMouseLeaves ⟨[], none, 0⟩ [-1, -1, -1, -1, -1]).triggerCalls ≤ 0 + 1 ∧
    (runMouseLeaves ⟨[], none, 0⟩ []).triggerCalls = 0 ∧
    (runMouseLeaves ⟨[], none, 0⟩ ([] ++ [-1])).triggerCalls = 0 + 1 ∧
    (runMouseLeaves ⟨[], none, 0⟩ ([] ++ [-1])).sessionStorage.getItem "exit_intent_shown"
      = some "true" ∧
    (runMouseLeaves ⟨[], none, 0⟩ [-1, -1, -1, -1, -1]).triggerCalls = 0 + 1 :=
  ⟨(exit_intent_at_most_once ⟨[], none, 0⟩ [-1, -1, -1, -1, -1]).1,
   (exit_intent_at_most_once ⟨[], none, 0⟩ [-1, -1, -1, -1, -1]).2 rfl
     [] (-1) [-1, -1, -1, -1] rfl (by simp) (by norm_num)⟩

/-! ## Stock ticker -/

theorem parseInt_samples :
    JS.parseInt "  42px" = some 42 ∧ JS.parseInt "-7" = some (-7) ∧
    JS.parseInt "0x1f" = some 31 ∧ JS.parseInt "abc" = none ∧
    initialStock none = some 10 ∧ initialStock (some "") = some 10 ∧
    initialStock (some "1") = some 1 := by
  decide

theorem stockTick_stock (t : Ticker) (draw : ℚ) (n : Int) (h : t.stock = some n) :
    ∃ k, (stockTick t draw).stock = some k ∧ k ≤ n ∧ (2 ≤ n → 2 ≤ k) ∧ (n ≤ 2 → k = n) := by
  unfold stockTick
  by_cases hc : (stockAboveFloor t.stock && decide (decrementThreshold < draw)) = true
  · rw [if_pos hc]
    have h2 : 2 < n := by
      rw [h] at hc
      simp only [stockAboveFloor, Bool.and_eq_true, decide_eq_true_eq] at hc
      exact hc.1
    exact ⟨n - 1, by simp [h], by omega, fun _ => by omega, fun h3 => by omega⟩
  · rw [if_neg hc]
    exact ⟨n, h, le_refl n, fun h2 => h2, fun _ => rfl⟩

theorem stockTick_nan (t : Ticker) (draw : ℚ) (h : t.stock = none) :
    stockTick t draw = t := by
  simp [stockTick, h, stockAboveFloor]

theorem runStockTicks_stock (draws : List ℚ) (t : Ticker) (n : Int) (h : t.stock = some n) :
    ∃ m, (runStockTicks t draws).stock = some m ∧ m ≤ n ∧ (2 ≤ n → 2 ≤ m) ∧
      (n ≤ 2 → m = n) := by
  induction draws generalizing t n with
  | nil => exact ⟨n, h, le_refl n, fun h2 => h2, fun _ => rfl⟩
  | cons d ds ih =>
    obtain ⟨k, hk, hkn, hk2, hkeq⟩ := stockTick_stock t d n h
    obtain ⟨m, hm, hmk, hm2, hmeq⟩ := ih (stockTick t d) k hk
    refine ⟨m, hm, le_trans hmk hkn, fun h2 => hm2 (hk2 h2), fun h2 => ?_⟩
    have := hkeq h2
    rw [hmeq (by omega), this]

theorem runStockTicks_nan (draws : List ℚ) (t : Ticker) (h : t.stock = none) :
    runStockTicks t draws = t := by
  induction draws with
  | nil => rfl
  | cons d ds ih =>
    show runStockTicks (stockTick t d) ds = t
    rw [stockTick_nan t d h]
    exact ih

/-- C2, as stated, fails: a ticker whose `data-stock` is `1` starts with
stock 1, the guard `stock > 2` keeps every tick from changing it, and the
stock after the tick is 1, which is below 2. -/
theorem stock_floor_counterexample :
    (runStockTicks (initTicker (some "1") "1 items left" []) [9 / 10]).stock = some 1 ∧
    ¬ ((2 : Int) ≤ 1) := by
  constructor
  · decide
  · decide

/-- C2, amended: over any sequence of ticks with any random draws the stock
is never greater after a tick than before it; it is at least 2 after every
tick when the initial stock is a number that is at least 2 (as it is, with
the value 10, when `data-stock` is absent); an initial stock of 2 or less,
and a `NaN` one, is left as it is by every tick. -/
theorem stock_floor_from_valid_start (t : Ticker) (draws : List ℚ) (draw : ℚ) :
    (∀ n : Int, t.stock = some n →
      ∃ m k : Int, (runStockTicks t draws).stock = some m ∧
        (stockTick (runStockTicks t draws) draw).stock = some k ∧
        k ≤ m ∧ m ≤ n ∧ (2 ≤ n → 2 ≤ m ∧ 2 ≤ k) ∧ (n ≤ 2 → m = n ∧ k = n)) ∧
    (t.stock = none → (runStockTicks t draws).stock = none ∧
      (stockTick (runStockTicks t draws) draw).stock = none) ∧
    (∀ (text : String) (classes : List String), (initTicker none text classes).stock = some 10) := by
  refine ⟨fun n h => ?_, fun h => ?_, fun _ _ => rfl⟩
  · obtain ⟨m, hm, hmn, hm2, hmeq⟩ := runStockTicks_stock draws t n h
    obtain ⟨k, hk, hkm, hk2, hkeq⟩ := stockTick_stock (runStockTicks t draws) draw m hm
    refine ⟨m, k, hm, hk, hkm, hmn, fun h2 => ⟨hm2 h2, hk2 (hm2 h2)⟩, fun h2 => ?_⟩
    have e := hmeq h2
    exact ⟨e, by rw [hkeq (by omega), e]⟩
  · rw [runStockTicks_nan draws t h, stockTick_nan t draw h]
    exact ⟨h, h⟩

/-- An instance of the amended C2: a ticker without `data-stock`, three ticks. -/
theorem stock_floor_from_valid_start_witness :
    ∃ m k : Int, (runStockTicks (initTicker none "" []) [9 / 10, 1 / 2]).stock = some m ∧
      (stockTick (runStockTicks (initTicker none "" []) [9 / 10, 1 / 2]) (4 / 5)).stock = some k ∧
      k ≤ m ∧ m ≤ 10 ∧ (2 ≤ (10 : Int) → 2 ≤ m ∧ 2 ≤ k) ∧ ((10 : Int) ≤ 2 → m = 10 ∧ k = 10) :=
  (stock_floor_from_valid_start (initTicker none "" []) [9 / 10, 1 / 2] (4 / 5)).1 10 rfl

/-! ## CTA engine -/

/-- C3, as stated, fails: a pointer-enter on an element in `loading` changes
its state to `aroused`, and a pointer-leave on it changes the state to `idle`. -/
theorem cta_hover_guard_counterexample :
    (onMouseEnter ⟨some "loading", 100, [600]⟩).dataState = some "aroused" ∧
    (onMouseLeave ⟨some "loading", 100, [600]⟩).dataState = some "idle" ∧
    (onMouseEnter ⟨some "loading", 100, [600]⟩).dataState ≠ some "loading" ∧
    (onMouseLeave ⟨some "success", 700, []⟩).dataState ≠ some "success" := by
  decide

/-- C3, amended: in every state, `loading` and `success` included, a
pointer-enter sets the state to `aroused` and a pointer-leave sets it to
`idle`, neither touching the pending completion; so an enter/leave pair
delivered between a click and its 500 ms completion leaves the element in
`idle` until the completion, which then sets `success`. -/
theorem cta_hover_unconditional (c : CTA) :
    (onMouseEnter c).dataState = some "aroused" ∧
    (onMouseLeave c).dataState = some "idle" ∧
    (onMouseEnter c).successDue = c.successDue ∧
    (onMouseLeave c).successDue = c.successDue ∧
    (handleCTAClick c).dataState = some "loading" ∧
    (onMouseLeave (onMouseEnter (handleCTAClick c))).dataState = some "idle" ∧
    (∀ t, t < c.now + 500 → c.successDue = [] →
      (ctaAdvance (onMouseLeave (onMouseEnter (handleCTAClick c))) t).dataState
        = some "idle") ∧
    (∀ t, c.now + 500 ≤ t →
      (ctaAdvance (onMouseLeave (onMouseEnter (handleCTAClick c))) t).dataState
        = some "success") := by
  refine ⟨rfl, rfl, rfl, rfl, rfl, rfl, ?_, ?_⟩
  · intro t ht hnil
    have : ¬ c.now + 500 ≤ t := by omega
    simp [ctaAdvance, onMouseLeave, onMouseEnter, handleCTAClick, setCTAState, hnil, this]
  · intro t ht
    simp only [ctaAdvance, onMouseLeave, onMouseEnter, handleCTAClick, setCTAState]
    rw [List.filter_append]
    simp only [List.filter_cons, List.filter_nil, ht, decide_True, if_true, List.foldl_append,
      List.foldl_cons, List.foldl_nil]

/-- An instance of the amended C3: click at time 0, enter and leave, then the
clock reaches 499 and 500. -/
theorem cta_hover_unconditional_witness :
    (ctaAdvance (onMouseLeave (onMouseEnter (handleCTAClick ⟨some "idle", 0, []⟩))) 499).dataState
      = some "idle" ∧
    (ctaAdvance (onMouseLeave (onMouseEnter (handleCTAClick ⟨some "idle", 0, []⟩))) 500).dataState
      = some "success" :=
  ⟨(cta_hover_unconditional ⟨some "idle", 0, []⟩).2.2.2.2.2.2.1 499 (by decide) rfl,
   (cta_hover_unconditional ⟨some "idle", 0, []⟩).2.2.2.2.2.2.2 500 (by decide)⟩

/-! ## Countdown -/

theorem toDigitsCore_length_ge (b f n : Nat) (ds : List Char) :
    ds.length ≤ (Nat.toDigitsCore b f n ds).length := by
  induction f generalizing n ds with
  | zero => simp [Nat.toDigitsCore]
  | succ f ih =>
    simp only [Nat.toDigitsCore]
    split
    · simp
    · exact le_trans (by simp) (ih _ _)

theorem repr_length_ge (n : Nat) (h : 10 ≤ n) : 2 ≤ (Nat.repr n).length := by
  obtain ⟨k, rfl⟩ : ∃ k, n = k + 1 := ⟨n - 1, by omega⟩
  simp only [Nat.repr, Nat.toDigits, String.length, List.asString, Nat.toDigitsCore]
  have : (k + 1) / 10 ≠ 0 := by omega
  rw [if_neg this]
  split
  · simp
  · exact le_trans (by simp) (toDigitsCore_length_ge _ _ _ _)

theorem repr_length_one (n : Nat) (h : n < 10) : (Nat.repr n).length = 1 := by
  interval_cases n <;> rfl

theorem repr_length_two (n : Nat) (h1 : 10 ≤ n) (h2 : n < 100) : (Nat.repr n).length = 2 := by
  have := Nat.repr_length n 2 (by decide) (by simpa using h2)
  have := repr_length_ge n h1
  omega

theorem renderUnit_small (v : Int) (h0 : 0 ≤ v) (h : v < 10) :
    renderUnit v = "0" ++ toString v := by
  obtain ⟨n, rfl⟩ := Int.eq_ofNat_of_zero_le h0
  have e : toString (n : Int) = Nat.repr n := rfl
  have hl := repr_length_one n (by omega)
  simp only [renderUnit, padStart, e, hl]
  rfl

theorem renderUnit_large (v : Int) (h : 10 ≤ v) : renderUnit v = toString v := by
  obtain ⟨n, rfl⟩ := Int.eq_ofNat_of_zero_le (by omega : 0 ≤ v)
  have e : toString (n : Int) = Nat.repr n := rfl
  have hl := repr_length_ge n (by omega)
  have h0 : 2 - (Nat.repr n).length = 0 := by omega
  simp only [renderUnit, padStart, e, h0, List.replicate_zero]
  simp

theorem renderUnit_length (v : Int) (h0 : 0 ≤ v) (h : v < 100) : (renderUnit v).length = 2 := by
  obtain ⟨n, rfl⟩ := Int.eq_ofNat_of_zero_le h0
  have e : toString (n : Int) = Nat.repr n := rfl
  by_cases h10 : n < 10
  · rw [renderUnit_small _ h0 (by omega), String.length_append, e, repr_length_one n h10]
    rfl
  · rw [renderUnit_large _ (by omega), e, repr_length_two n (by omega) (by omega)]

theorem units_arith (d : Int) (hd : 0 ≤ d) :
    daysOf d = d / 86400000 ∧ hoursOf d = d % 86400000 / 3600000 ∧
    minutesOf d = d % 3600000 / 60000 ∧ secondsOf d = d % 60000 / 1000 := by
  simp only [daysOf, hoursOf, minutesOf, secondsOf]
  norm_num
  have h1 : Int.tmod d 86400000 = d % 86400000 := Int.tmod_eq_emod hd (by norm_num)
  have h2 : Int.tmod d 3600000 = d % 3600000 := Int.tmod_eq_emod hd (by norm_num)
  have h3 : Int.tmod d 60000 = d % 60000 := Int.tmod_eq_emod hd (by norm_num)
  rw [h1, h2, h3]
  refine ⟨Int.fdiv_eq_ediv _ (by norm_num), Int.fdiv_eq_ediv _ (by norm_num),
    Int.fdiv_eq_ediv _ (by norm_num), Int.fdiv_eq_ediv _ (by norm_num)⟩

/-- C7: at a remaining distance `d >= 0` the days, hours, minutes and seconds
are non-negative, with hours below 24 and minutes and seconds below 60, and
they add up to the whole seconds of `d`; an element with its four unit
children gets each value written as decimal digits padded with `0` to width 2:
one `0` in front of a value below 10, the digits alone from 10 on, hence two
characters for hours, minutes and seconds, and for days below 100. -/
theorem countdown_units (e now : Int) (hd : 0 ≤ e - now) (a b c d : String) :
    0 ≤ daysOf (e - now) ∧
    0 ≤ hoursOf (e - now) ∧ hoursOf (e - now) < 24 ∧
    0 ≤ minutesOf (e - now) ∧ minutesOf (e - now) < 60 ∧
    0 ≤ secondsOf (e - now) ∧ secondsOf (e - now) < 60 ∧
    daysOf (e - now) * 86400 + hoursOf (e - now) * 3600 + minutesOf (e - now) * 60
      + secondsOf (e - now) = (e - now) / 1000 ∧
    countdownTick (some e) ⟨some a, some b, some c, some d, none⟩ now
      = (⟨some (renderUnit (daysOf (e - now))), some (renderUnit (hoursOf (e - now))),
          some (renderUnit (minutesOf (e - now))), some (renderUnit (secondsOf (e - now))),
          none⟩, false) ∧
    (renderUnit (hoursOf (e - now))).length = 2 ∧
    (renderUnit (minutesOf (e - now))).length = 2 ∧
    (renderUnit (secondsOf (e - now))).length = 2 ∧
    (daysOf (e - now) < 100 → (renderUnit (daysOf (e - now))).length = 2) ∧
    (∀ v : Int, 0 ≤ v → v < 10 → renderUnit v = "0" ++ toString v) ∧
    (∀ v : Int, 10 ≤ v → renderUnit v = toString v) := by
  obtain ⟨hday, hhour, hmin, hsec⟩ := units_arith (e - now) hd
  have b1 : 0 ≤ daysOf (e - now) := by rw [hday]; omega
  have b2 : 0 ≤ hoursOf (e - now) ∧ hoursOf (e - now) < 24 := by rw [hhour]; omega
  have b3 : 0 ≤ minutesOf (e - now) ∧ minutesOf (e - now) < 60 := by rw [hmin]; omega
  have b4 : 0 ≤ secondsOf (e - now) ∧ secondsOf (e - now) < 60 := by rw [hsec]; omega
  refine ⟨b1, b2.1, b2.2, b3.1, b3.2, b4.1, b4.2, ?_, ?_,
    renderUnit_length _ b2.1 (by omega), renderUnit_length _ b3.1 (by omega),
    renderUnit_length _ b4.1 (by omega), fun h => renderUnit_length _ b1 h,
    renderUnit_small, renderUnit_large⟩
  · rw [hday, hhour, hmin, hsec]; omega
  · have : ¬ e - now < 0 := by omega
    simp [countdownTick, writeUnits, this]

/-- An instance of C7: 1 day, 2 hours, 3 minutes, 4.5 seconds before the target. -/
theorem countdown_units_witness :
    daysOf (93784500 - 0) * 86400 + hoursOf (93784500 - 0) * 3600
      + minutesOf (93784500 - 0) * 60 + secondsOf (93784500 - 0) = (93784500 - 0) / 1000 ∧
    countdownTick (some 93784500) ⟨some "", some "", some "", some "", none⟩ 0
      = (⟨some (renderUnit (daysOf (93784500 - 0))), some (renderUnit (hoursOf (93784500 - 0))),
          some (renderUnit (minutesOf (93784500 - 0))),
          some (renderUnit (secondsOf (93784500 - 0))), none⟩, false) :=
  ⟨(countdown_units 93784500 0 (by decide) "" "" "" "").2.2.2.2.2.2.2.1,
   (countdown_units 93784500 0 (by decide) "" "" "" "").2.2.2.2.2.2.2.2.1⟩

theorem countdownTick_sample :
    countdownTick (some 93784500) ⟨some "", some "", some "", some "", none⟩ 0
      = (⟨some "01", some "02", some "03", some "04", none⟩, false) := by decide

theorem countdownTick_past (e : Int) (c : Countdown) (now : Int) (h : e < now) :
    countdownTick (some e) c now = (⟨none, none, none, none, some expiredMarkup⟩, false) := by
  have : e - now < 0 := by omega
  simp [countdownTick, this]

theorem runCountdown_past (e : Int) (clock : List Int) (c : Countdown) (t : Int)
    (ht : e < t) (hclock : ∀ u ∈ clock, e < u) :
    runCountdown (some e) c (t :: clock) = ⟨none, none, none, none, some expiredMarkup⟩ := by
  induction clock generalizing c t with
  | nil => simp [runCountdown, countdownTick_past e c t ht]
  | cons u us ih =>
    have hu : e < u := hclock u (List.mem_cons_self _ _)
    have := ih (countdownTick (some e) c t).1 u hu
      (fun w hw => hclock w (List.mem_cons_of_mem _ hw))
    simpa [runCountdown] using this

theorem chain_lower_bound (e : Int) (clock : List Int) (t : Int) (ht : e < t)
    (hmono : List.Chain (· ≤ ·) t clock) : ∀ u ∈ clock, e < u := by
  induction clock generalizing t with
  | nil => intro u hu; cases hu
  | cons v vs ih =>
    rw [List.chain_cons] at hmono
    intro u hu
    rcases List.mem_cons.1 hu with rfl | hu
    · omega
    · exact ih v (by omega) hmono.2 u hu

/-- C6, as stated, fails at the instant of the target: with `now = target`
the distance is 0, the test `distance < 0` is false, and the tick writes `00`
into the four fields instead of rendering the expired state. -/
theorem countdown_expiry_counterexample :
    countdownTick (some 1000) ⟨some "00", some "00", some "00", some "01", none⟩ 1000
      = (⟨some "00", some "00", some "00", some "00", none⟩, false) ∧
    (countdownTick (some 1000) ⟨some "00", some "00", some "00", some "01", none⟩ 1000).1.innerHTML
      ≠ some expiredMarkup := by
  decide

/-- C6, amended: every tick taken at a time after the target (`now > target`,
remaining distance below 0) renders the expired state and writes none of the
four fields, so with a non-decreasing clock every tick from the first one
past the target on leaves the element in that same expired state; the tick
taken exactly at the target writes `00` into all four fields. -/
theorem countdown_expired_after_target (e : Int) (c : Countdown) :
    (∀ now, e < now →
      countdownTick (some e) c now = (⟨none, none, none, none, some expiredMarkup⟩, false)) ∧
    (∀ t clock, e < t → List.Chain (· ≤ ·) t clock →
      runCountdown (some e) c (t :: clock) = ⟨none, none, none, none, some expiredMarkup⟩) ∧
    (∀ a b m s : String,
      countdownTick (some e) ⟨some a, some b, some m, some s, none⟩ e
        = (⟨some "00", some "00", some "00", some "00", none⟩, false)) := by
  refine ⟨fun now h => countdownTick_past e c now h, fun t clock ht hmono => ?_, fun a b m s => ?_⟩
  · exact runCountdown_past e clock c t ht (chain_lower_bound e clock t ht hmono)
  · have h0 : e - e = 0 := by omega
    have r1 : renderUnit (daysOf 0) = "00" := by decide
    have r2 : renderUnit (hoursOf 0) = "00" := by decide
    have r3 : renderUnit (minutesOf 0) = "00" := by decide
    have r4 : renderUnit (secondsOf 0) = "00" := by decide
    simp [countdownTick, h0, writeUnits, r1, r2, r3, r4]

/-- An instance of the amended C6: target 1000, ticks at 1001, 2001, 3001. -/
theorem countdown_expired_after_target_witness :
    countdownTick (some 1000) ⟨some "00", some "00", some "00", some "00", none⟩ 1001
      = (⟨none, none, none, none, some expiredMarkup⟩, false) ∧
    runCountdown (some 1000) ⟨some "00", some "00", some "00", some "00", none⟩ [1001, 2001, 3001]
      = ⟨none, none, none, none, some expiredMarkup⟩ :=
  ⟨(countdown_expired_after_target 1000 ⟨some "00", some "00", some "00", some "00", none⟩).1
      1001 (by decide),
   (countdown_expired_after_target 1000 ⟨some "00", some "00", some "00", some "00", none⟩).2.1
      1001 [2001, 3001] (by decide) (by simp)⟩

/-! ## Scroll progress -/

theorem updateBars_all_filled (percent : Num) (bars : List ProgressBar)
    (h : ∀ b ∈ bars, b.hasFill = true) :
    updateBars percent bars =
      (bars.map fun b => { b with fillWidth := some percent
                                  label := b.label.map fun _ => percent.roundText ++ "%" },
       false) := by
  induction bars with
  | nil => rfl
  | cons b bs ih =>
    have hb := h b (List.mem_cons_self _ _)
    have := ih fun x hx => h x (List.mem_cons_of_mem _ hx)
    simp [updateBars, hb, this]

theorem roundHalfEven_le (x : ℚ) (n : Int) (h : x ≤ n) : roundHalfEven x ≤ n := by
  have hf : ⌊x⌋ ≤ n := Int.cast_le.1 (le_trans (Int.floor_le x) h)
  unfold roundHalfEven
  have key : 1 / 2 ≤ x - ⌊x⌋ → ⌊x⌋ + 1 ≤ n := by
    intro hr
    by_contra hc
    have hn : (n : ℚ) ≤ ⌊x⌋ := by exact_mod_cast (by omega : n ≤ ⌊x⌋)
    linarith
  split
  · exact hf
  · next h1 =>
    have h2 := key (not_lt.1 h1)
    split
    · exact h2
    · split
      · exact hf
      · exact h2

theorem le_roundHalfEven (x : ℚ) (n : Int) (h : (n : ℚ) ≤ x) : n ≤ roundHalfEven x := by
  have hf : n ≤ ⌊x⌋ := Int.le_floor.2 h
  unfold roundHalfEven
  split
  · exact hf
  · split
    · omega
    · split <;> omega

theorem roundHalfEven_intCast (n : Int) : roundHalfEven (n : ℚ) = n :=
  le_antisymm (roundHalfEven_le _ n le_rfl) (le_roundHalfEven _ n le_rfl)

theorem roundHalfEven_eq (x : ℚ) (n : Int) (h1 : (n : ℚ) - 1 / 2 < x) (h2 : x < n + 1 / 2) :
    roundHalfEven x = n := by
  unfold roundHalfEven
  by_cases hx : (n : ℚ) ≤ x
  · have hf : ⌊x⌋ = n := Int.floor_eq_iff.2 ⟨hx, by linarith⟩
    rw [hf, if_pos (by linarith)]
  · have hf : ⌊x⌋ = n - 1 := Int.floor_eq_iff.2 ⟨by push_cast; linarith, by push_cast; linarith⟩
    rw [hf]
    have : ¬ (x - ((n - 1 : Int) : ℚ) < 1 / 2) := by push_cast; linarith
    rw [if_neg this, if_pos (by push_cast; linarith)]
    omega

theorem ulpExp_nonpos (x : ℚ) (h0 : 0 ≤ x) (h : x < 2 ^ 53) : ulpExp x ≤ 0 := by
  have hlog : Int.log 2 |x| ≤ 52 := by
    rw [abs_of_nonneg h0]
    rcases eq_or_lt_of_le h0 with h00 | hpos
    · rw [← h00, Int.log_zero_right]; decide
    · have : Int.log 2 x < 53 := by
        rw [← Int.lt_zpow_iff_log_lt (by decide) hpos]
        exact_mod_cast h
      omega
  unfold ulpExp
  omega

theorem ulpExp_eq (x : ℚ) (e : Int) (hx : 0 < x) (h1 : (2 : ℚ) ^ e ≤ x) (h2 : x < 2 ^ (e + 1))
    (he : -1022 ≤ e) : ulpExp x = e - 52 := by
  have hl : Int.log 2 |x| = e := by
    rw [abs_of_pos hx]
    apply le_antisymm
    · have : Int.log 2 x < e + 1 := by
        rw [← Int.lt_zpow_iff_log_lt (by decide) hx]
        exact_mod_cast h2
      omega
    · rw [← Int.zpow_le_iff_le_log (by decide) hx]
      exact_mod_cast h1
  unfold ulpExp
  rw [hl]
  omega

theorem div_zpow_nonpos (b : ℚ) (q : Int) (hq : q ≤ 0) :
    b / 2 ^ q = b * ((2 ^ (-q).toNat : Int) : ℚ) := by
  have : q = -((-q).toNat : Int) := by omega
  conv_lhs => rw [this]
  rw [zpow_neg, zpow_natCast, div_inv_eq_mul]
  push_cast
  rfl

theorem nearest_bounds (B : Nat) (hB : (B : ℚ) < 2 ^ 53) (x : ℚ) (h0 : 0 ≤ x) (h : x ≤ B) :
    0 ≤ nearest x ∧ nearest x ≤ B := by
  have hq : ulpExp x ≤ 0 := ulpExp_nonpos x h0 (lt_of_le_of_lt h hB)
  have hpow : (0 : ℚ) < 2 ^ ulpExp x := zpow_pos (by norm_num) _
  unfold nearest
  constructor
  · have : (0 : Int) ≤ roundHalfEven (x / 2 ^ ulpExp x) :=
      le_roundHalfEven _ 0 (by simpa using div_nonneg h0 hpow.le)
    exact mul_nonneg (by exact_mod_cast this) hpow.le
  · have hle : x / 2 ^ ulpExp x ≤ ((B * 2 ^ (-ulpExp x).toNat : Int) : ℚ) := by
      have := div_zpow_nonpos (B : ℚ) (ulpExp x) hq
      push_cast at this ⊢
      rw [← this]
      exact div_le_div_of_nonneg_right h hpow.le
    have := roundHalfEven_le _ _ hle
    have h2 : ((roundHalfEven (x / 2 ^ ulpExp x) : Int) : ℚ) ≤ (B : ℚ) / 2 ^ ulpExp x := by
      rw [div_zpow_nonpos (B : ℚ) (ulpExp x) hq]
      exact_mod_cast this
    calc ((roundHalfEven (x / 2 ^ ulpExp x) : Int) : ℚ) * 2 ^ ulpExp x
        ≤ (B : ℚ) / 2 ^ ulpExp x * 2 ^ ulpExp x := mul_le_mul_of_nonneg_right h2 hpow.le
      _ = B := div_mul_cancel₀ _ hpow.ne'

theorem nearest_natCast (d : Nat) (hd : (d : ℚ) < 2 ^ 53) : nearest (d : ℚ) = d := by
  have hq : ulpExp (d : ℚ) ≤ 0 := ulpExp_nonpos _ (Nat.cast_nonneg d) hd
  have hpow : (0 : ℚ) < 2 ^ ulpExp (d : ℚ) := zpow_pos (by norm_num) _
  unfold nearest
  have e : (d : ℚ) / 2 ^ ulpExp (d : ℚ) = ((d * 2 ^ (-ulpExp (d : ℚ)).toNat : Int) : ℚ) := by
    rw [div_zpow_nonpos _ _ hq]; push_cast; rfl
  rw [e, roundHalfEven_intCast, ← e]
  exact div_mul_cancel₀ _ hpow.ne'

theorem nearest_eq (x : ℚ) (e n : Int) (hx : 0 < x) (h1 : (2 : ℚ) ^ e ≤ x) (h2 : x < 2 ^ (e + 1))
    (he : -1022 ≤ e) (h3 : (n : ℚ) - 1 / 2 < x / 2 ^ (e - 52))
    (h4 : x / 2 ^ (e - 52) < n + 1 / 2) : nearest x = n * 2 ^ (e - 52) := by
  unfold nearest
  rw [ulpExp_eq x e hx h1 h2 he, roundHalfEven_eq _ n h3 h4]

theorem ofReal_bounded (B : Nat) (hB : (B : ℚ) < 2 ^ 53) (x : ℚ) (h0 : 0 ≤ x) (h : x ≤ B) :
    Num.ofReal x = .fin (nearest x) := by
  obtain ⟨hn0, hnB⟩ := nearest_bounds B hB x h0 h
  have : ¬ ((2 : ℚ) ^ 1024 ≤ |nearest x|) := by
    rw [abs_of_nonneg hn0, not_le]
    calc nearest x ≤ B := hnB
      _ < 2 ^ 53 := hB
      _ < 2 ^ 1024 := by norm_num
  simp [Num.ofReal, this]

theorem ofReal_natCast (d : Nat) (hd : (d : ℚ) < 2 ^ 53) : Num.ofReal (d : ℚ) = .fin d := by
  rw [ofReal_bounded d hd d (Nat.cast_nonneg d) le_rfl, nearest_natCast d hd]

theorem scrollPercent_scrollable (scrollY : ℚ) (d : Nat) (scrollHeight innerHeight : ℚ)
    (hd : scrollHeight - innerHeight = d) (hpos : 0 < d) (hlt : (d : ℚ) < 2 ^ 53)
    (h0 : 0 ≤ scrollY) (h1 : scrollY ≤ d) :
    scrollPercent scrollY scrollHeight innerHeight
        = .fin (nearest (nearest (scrollY / (scrollHeight - innerHeight)) * 100)) ∧
    0 ≤ nearest (nearest (scrollY / (scrollHeight - innerHeight)) * 100) ∧
    nearest (nearest (scrollY / (scrollHeight - innerHeight)) * 100) ≤ 100 := by
  have hdq : (0 : ℚ) < d := by exact_mod_cast hpos
  have hq0 : 0 ≤ scrollY / d := div_nonneg h0 hdq.le
  have hq1 : scrollY / d ≤ ((1 : Nat) : ℚ) := by
    rw [Nat.cast_one]
    exact (div_le_one hdq).2 h1
  obtain ⟨hu0, hu1⟩ := nearest_bounds 1 (by norm_num) _ hq0 hq1
  rw [Nat.cast_one] at hu1
  have hp0 : 0 ≤ nearest (scrollY / d) * 100 := mul_nonneg hu0 (by norm_num)
  have hp1 : nearest (scrollY / d) * 100 ≤ ((100 : Nat) : ℚ) := by
    push_cast
    linarith
  obtain ⟨hr0, hr1⟩ := nearest_bounds 100 (by norm_num) _ hp0 hp1
  rw [hd]
  refine ⟨?_, hr0, by simpa using hr1⟩
  unfold scrollPercent Num.sub
  rw [hd, ofReal_natCast d hlt]
  simp only [Num.div, hdq.ne', if_false]
  rw [ofReal_bounded 1 (by norm_num) _ hq0 hq1]
  simp only [Num.scale]
  exact ofReal_bounded 100 (by norm_num) _ hp0 hp1

/-- C8 evaluated on a page that is not scrollable (`scrollHeight` equal to the
viewport height, `scrollY = 0`): the listener divides by zero, the percentage
is `NaN`, and the bar gets `NaN` assigned to its fill width and `NaN%` written
to its label; at a positive `scrollY` the label becomes `Infinity%`. -/
theorem progress_divisor_unguarded :
    onScroll [⟨true, none, some "0%"⟩] 0 1000 1000
      = ([⟨true, some .nan, some "NaN%"⟩], false) ∧
    onScroll [⟨true, none, some "0%"⟩] 5 1000 1000
      = ([⟨true, some .posInf, some "Infinity%"⟩], false) := by
  have hz : Num.sub 1000 1000 = .fin 0 := by
    have := ofReal_natCast 0 (by norm_num)
    simpa [Num.sub] using this
  constructor
  · simp [onScroll, updateBars, scrollPercent, hz, Num.div, Num.scale, Num.roundText]
  · simp [onScroll, updateBars, scrollPercent, hz, Num.div, Num.scale, Num.roundText]

theorem scrollPercent_sample :
    scrollPercent 230 1400 1000 = .fin (8092405580431359 / 140737488355328) := by
  have h := (scrollPercent_scrollable 230 400 1400 1000 (by norm_num) (by norm_num)
    (by norm_num) (by norm_num) (by norm_num)).1
  rw [h]
  have e1 : nearest ((230 : ℚ) / (1400 - 1000)) = 2589569785738035 / 4503599627370496 := by
    rw [nearest_eq _ (-1) 5179139571476070 (by norm_num) (by norm_num) (by norm_num)
      (by norm_num) (by norm_num) (by norm_num)]
    norm_num
  have e2 : nearest ((2589569785738035 : ℚ) / 4503599627370496 * 100)
      = 8092405580431359 / 140737488355328 := by
    rw [nearest_eq _ 5 8092405580431359 (by norm_num) (by norm_num) (by norm_num)
      (by norm_num) (by norm_num) (by norm_num)]
    norm_num
  rw [e1, e2]

theorem scrollPercent_sample_third :
    scrollPercent 1 4 1 = .fin (2345624805922133 / 70368744177664) := by
  have h := (scrollPercent_scrollable 1 3 4 1 (by norm_num) (by norm_num)
    (by norm_num) (by norm_num) (by norm_num)).1
  rw [h]
  have e1 : nearest ((1 : ℚ) / (4 - 1)) = 6004799503160661 / 18014398509481984 := by
    rw [nearest_eq _ (-2) 6004799503160661 (by norm_num) (by norm_num) (by norm_num)
      (by norm_num) (by norm_num) (by norm_num)]
    norm_num
  have e2 : nearest ((6004799503160661 : ℚ) / 18014398509481984 * 100)
      = 2345624805922133 / 70368744177664 := by
    rw [nearest_eq _ 5 4691249611844266 (by norm_num) (by norm_num) (by norm_num)
      (by norm_num) (by norm_num) (by norm_num)]
    norm_num
  rw [e1, e2]

/-- C10, as stated, fails. An enrolled bar without a `.progress-fill` child
makes the listener throw: nothing is written to it or to the bar after it.
And the percentage is the value of the expression in double arithmetic: at
`scrollY = 230`, `scrollHeight = 1400`, `viewportHeight = 1000` it is
57.49999999999999 (not 57.5) and the label is `57%`, where rounding the exact
quotient would give 58. -/
theorem progress_percent_counterexample :
    onScroll [⟨false, none, some "0%"⟩, ⟨true, none, some "0%"⟩] 500 2000 1000
      = ([⟨false, none, some "0%"⟩, ⟨true, none, some "0%"⟩], true) ∧
    onScroll [⟨true, none, some "0%"⟩] 230 1400 1000
      = ([⟨true, some (.fin (8092405580431359 / 140737488355328)), some "57%"⟩], false) ∧
    (8092405580431359 / 140737488355328 : ℚ) ≠ 230 / (1400 - 1000) * 100 ∧
    ⌊(230 / (1400 - 1000) * 100 : ℚ) + 1 / 2⌋ = 58 := by
  refine ⟨?_, ?_, by norm_num, by norm_num⟩
  · simp [onScroll, updateBars]
  · have hf : ⌊(8092405580431359 / 140737488355328 : ℚ) + 1 / 2⌋ = 57 := by norm_num
    simp only [onScroll, List.length_singleton, one_ne_zero, if_false, updateBars,
      scrollPercent_sample, if_true, Option.map_some', Num.roundText, hf]
    have ht : toString (57 : Int) ++ "%" = "57%" := by decide
    rw [ht]

/-- C10, amended: on a scrollable page (`scrollHeight > viewportHeight`) with
`0 <= scrollY <= scrollHeight - viewportHeight`, when every enrolled bar has
its `.progress-fill` child, the percentage given to every enrolled bar is the
value of `scrollY / (scrollHeight - viewportHeight) * 100` in double
arithmetic (the quotient and the product each rounded to the nearest double),
it lies in `[0, 100]`, and the label is that double rounded to the nearest
integer; the bounds 2000 and 1000 give 0 at `scrollY = 0` and 100 at
`scrollY = 1000`. -/
theorem progress_percent (scrollY : ℚ) (scrollHeight innerHeight : Long)
    (bars : List ProgressBar) (hscroll : innerHeight.val < scrollHeight.val)
    (h0 : 0 ≤ scrollY) (h1 : scrollY ≤ scrollHeight.val - innerHeight.val)
    (hfill : ∀ b ∈ bars, b.hasFill = true) :
    ∃ p : ℚ,
      p = nearest (nearest (scrollY / ((scrollHeight.val : ℚ) - innerHeight.val)) * 100) ∧
      0 ≤ p ∧ p ≤ 100 ∧
      scrollPercent scrollY scrollHeight.val innerHeight.val = .fin p ∧
      onScroll bars scrollY scrollHeight.val innerHeight.val =
        (bars.map fun b => { b with fillWidth := some (.fin p)
                                    label := b.label.map fun _ => toString ⌊p + 1 / 2⌋ ++ "%" },
         false) ∧
      |((⌊p + 1 / 2⌋ : Int) : ℚ) - p| ≤ 1 / 2 ∧
      scrollPercent 0 2000 1000 = .fin 0 ∧ scrollPercent 1000 2000 1000 = .fin 100 := by
  have hlo := innerHeight.lower
  have hhi := scrollHeight.upper
  obtain ⟨d, hd⟩ : ∃ d : Nat, scrollHeight.val - innerHeight.val = d :=
    ⟨(scrollHeight.val - innerHeight.val).toNat, by omega⟩
  have hdq : (scrollHeight.val : ℚ) - innerHeight.val = d := by exact_mod_cast hd
  have hpos : 0 < d := by omega
  have hlt : (d : ℚ) < 2 ^ 53 := by
    have : d < 2 ^ 53 := by
      have e : (2 : Nat) ^ 53 = 9007199254740992 := by norm_num
      omega
    exact_mod_cast this
  obtain ⟨hp, hp0, hp1⟩ := scrollPercent_scrollable scrollY d _ _ hdq hpos hlt h0
    (by rw [← hdq]; exact h1)
  refine ⟨_, rfl, hp0, hp1, hp, ?_, ?_, ?_, ?_⟩
  · unfold onScroll
    split
    · next hlen =>
      have : bars = [] := List.length_eq_zero.1 hlen
      subst this
      rfl
    · rw [hp, updateBars_all_filled _ _ hfill]
      rfl
  · rw [abs_le]
    have hle := Int.floor_le
      (nearest (nearest (scrollY / ((scrollHeight.val : ℚ) - innerHeight.val)) * 100) + 1 / 2)
    have hlt := Int.lt_floor_add_one
      (nearest (nearest (scrollY / ((scrollHeight.val : ℚ) - innerHeight.val)) * 100) + 1 / 2)
    constructor <;> linarith
  · have h := (scrollPercent_scrollable 0 1000 2000 1000 (by norm_num) (by norm_num)
      (by norm_num) (by norm_num) (by norm_num)).1
    rw [h]
    have e1 : nearest ((0 : ℚ) / (2000 - 1000)) = 0 := by
      have := nearest_natCast 0 (by norm_num)
      simpa using this
    rw [e1]
    have e2 := nearest_natCast 0 (by norm_num)
    simp only [Nat.cast_zero] at e2
    simp [e2]
  · have h := (scrollPercent_scrollable 1000 1000 2000 1000 (by norm_num) (by norm_num)
      (by norm_num) (by norm_num) (by norm_num)).1
    rw [h]
    have e1 : nearest ((1000 : ℚ) / (2000 - 1000)) = 1 := by
      have := nearest_natCast 1 (by norm_num)
      norm_num at this ⊢
      exact this
    rw [e1]
    have e2 := nearest_natCast 100 (by norm_num)
    norm_num at e2 ⊢
    rw [e2]

/-- The scenario of the amended C10: bounds 2000 and 1000, one bar with a
fill and a label, `scrollY = 1000`. -/
theorem progress_percent_witness :
    ∃ p : ℚ,
      p = nearest (nearest (1000 / (((2000 : Int) : ℚ) - (1000 : Int))) * 100) ∧
      0 ≤ p ∧ p ≤ 100 ∧
      scrollPercent 1000 (2000 : Int) (1000 : Int) = .fin p ∧
      onScroll [⟨true, none, some ""⟩] 1000 (2000 : Int) (1000 : Int) =
        (([⟨true, none, some ""⟩] : List ProgressBar).map fun b =>
            { b with fillWidth := some (.fin p)
                     label := b.label.map fun _ => toString ⌊p + 1 / 2⌋ ++ "%" },
         false) ∧
      |((⌊p + 1 / 2⌋ : Int) : ℚ) - p| ≤ 1 / 2 ∧
      scrollPercent 0 2000 1000 = .fin 0 ∧ scrollPercent 1000 2000 1000 = .fin 100 :=
  progress_percent 1000 ⟨2000, by decide, by decide⟩ ⟨1000, by decide, by decide⟩
    [⟨true, none, some ""⟩] (by decide) (by norm_num) (by norm_num) (by simp)

end ConversionEngine

namespace NajdCampaignOS

/-! ## Decision moment detection -/

theorem advance_of_no_pending (z : Zone) (t : Nat) (h : z.pending = []) :
    advance z t = { z with now := max z.now t } := by
  simp [advance, h]

theorem advance_single_early (z : Zone) (x : Timeout) (t : Nat) (h : z.pending = [x])
    (ht : t < x.due) : advance z t = { z with now := max z.now t } := by
  have : ¬ x.due ≤ t := by omega
  simp [advance, h, this, ht]

theorem advance_single_due (z : Zone) (x : Timeout) (t : Nat) (h : z.pending = [x])
    (ht : x.due ≤ t) :
    advance z t =
      { z with classList := JS.classListAdd z.classList "highlight-decision"
               interventions := z.interventions ++ [max z.now x.due]
               pending := []
               now := max (max z.now x.due) t } := by
  simp [advance, h, ht, runTimeout, triggerDecisionIntervention]

theorem enter_of_no_pending (z : Zone) (t : Nat) (h : z.pending = []) (hnow : z.now ≤ t) :
    step z (.visibility t true) =
      { z with dwellTimer := some (z.lastId + 1), lastId := z.lastId + 1,
               pending := [⟨z.lastId + 1, t + 3000⟩], now := t } := by
  simp [step, observerCallback, advance_of_no_pending z t h, startDwellTimer, h,
    Nat.max_eq_right hnow]

/-- C4 evaluated on enter, enter, leave: the second `startDwellTimer`
overwrites the stored handle without clearing the first timer, so two timers
are pending after the second enter, the leave clears only the second, and the
first fires at 3000 ms and sets `highlight-decision` on an element that left
at 2000 ms. -/
theorem dwell_timer_leak :
    (run (freshZone []) [.visibility 0 true, .visibility 1000 true]).pending
      = [⟨1, 3000⟩, ⟨2, 4000⟩] ∧
    (run (freshZone []) [.visibility 0 true, .visibility 1000 true,
      .visibility 2000 false]).pending = [⟨1, 3000⟩] ∧
    (run (freshZone []) [.visibility 0 true, .visibility 1000 true,
      .visibility 2000 false, .elapse 3000]).interventions = [3000] ∧
    (run (freshZone []) [.visibility 0 true, .visibility 1000 true,
      .visibility 2000 false, .elapse 3000]).classList = ["highlight-decision"] := by
  decide

theorem run_cons (z : Zone) (e : ZoneEvent) (es : List ZoneEvent) :
    run z (e :: es) = run (step z e) es := rfl

theorem enter_elapse_early (z : Zone) (t u : Nat) (h : z.pending = []) (hnow : z.now ≤ t)
    (hu : u < t + 3000) :
    (run z [.visibility t true, .elapse u]).interventions = z.interventions ∧
    (run z [.visibility t true, .elapse u]).classList = z.classList ∧
    (run z [.visibility t true, .elapse u]).pending = [⟨z.lastId + 1, t + 3000⟩] := by
  rw [run_cons, enter_of_no_pending z t h hnow]
  simp only [run, List.foldl, step]
  rw [advance_single_early _ ⟨z.lastId + 1, t + 3000⟩ u rfl hu]
  exact ⟨rfl, rfl, rfl⟩

theorem enter_elapse_due (z : Zone) (t u : Nat) (h : z.pending = []) (hnow : z.now ≤ t)
    (hu : t + 3000 ≤ u) :
    (run z [.visibility t true, .elapse u]).interventions = z.interventions ++ [t + 3000] ∧
    "highlight-decision" ∈ (run z [.visibility t true, .elapse u]).classList ∧
    (run z [.visibility t true, .elapse u]).pending = [] := by
  rw [run_cons, enter_of_no_pending z t h hnow]
  simp only [run, List.foldl, step]
  rw [advance_single_due _ ⟨z.lastId + 1, t + 3000⟩ u rfl hu]
  refine ⟨?_, ?_, rfl⟩
  · simp
  · simp only [JS.classListAdd]
    split
    · assumption
    · simp

theorem enter_leave (z : Zone) (t : Nat) (h : z.pending = []) (hnow : z.now ≤ t) :
    run z [.visibility t true, .visibility (t + 2000) false] =
      { z with dwellTimer := some (z.lastId + 1), lastId := z.lastId + 1, now := t + 2000 } := by
  rw [run_cons, enter_of_no_pending z t h hnow]
  simp only [run, List.foldl, step]
  rw [advance_single_early _ ⟨z.lastId + 1, t + 3000⟩ (t + 2000) rfl (by simp)]
  simp [observerCallback, clearDwellTimer, clearTimeout, h]

theorem run_events_append (z : Zone) (xs ys : List ZoneEvent) :
    run z (xs ++ ys) = run (run z xs) ys := by
  simp [run, List.foldl_append]

/-- C9: on a decision zone with no pending timer, a visibility-enter at time
`t` that no visibility-leave follows sets the intervention flag exactly once,
at `t + 3000` and not before; an enter at `t` followed by a leave at
`t + 2000` never sets it; and an enter at a later time `t2` then sets it at
`t2 + 3000` and not before. -/
theorem dwell_scenarios (z : Zone) (t : Nat) (h : z.pending = []) (hnow : z.now ≤ t) :
    (∀ u, u < t + 3000 →
      (run z [.visibility t true, .elapse u]).interventions = z.interventions ∧
      (run z [.visibility t true, .elapse u]).classList = z.classList) ∧
    (∀ u, t + 3000 ≤ u →
      (run z [.visibility t true, .elapse u]).interventions = z.interventions ++ [t + 3000] ∧
      "highlight-decision" ∈ (run z [.visibility t true, .elapse u]).classList ∧
      (run z [.visibility t true, .elapse u]).pending = []) ∧
    (∀ u,
      (run z [.visibility t true, .visibility (t + 2000) false, .elapse u]).interventions
        = z.interventions ∧
      (run z [.visibility t true, .visibility (t + 2000) false, .elapse u]).classList
        = z.classList ∧
      (run z [.visibility t true, .visibility (t + 2000) false, .elapse u]).pending = []) ∧
    (∀ t2 u, t + 2000 ≤ t2 → u < t2 + 3000 →
      (run z [.visibility t true, .visibility (t + 2000) false, .visibility t2 true,
        .elapse u]).interventions = z.interventions) ∧
    (∀ t2 u, t + 2000 ≤ t2 → t2 + 3000 ≤ u →
      (run z [.visibility t true, .visibility (t + 2000) false, .visibility t2 true,
        .elapse u]).interventions = z.interventions ++ [t2 + 3000]) := by
  obtain ⟨s2, hs2, hp2, hn2, hi2, hc2⟩ : ∃ s2 : Zone,
      run z [.visibility t true, .visibility (t + 2000) false] = s2 ∧ s2.pending = [] ∧
      s2.now = t + 2000 ∧ s2.interventions = z.interventions ∧ s2.classList = z.classList :=
    ⟨_, enter_leave z t h hnow, h, rfl, rfl, rfl⟩
  have split3 : ∀ (a b : ZoneEvent) (rest : List ZoneEvent),
      run z (a :: b :: rest) = run (run z [a, b]) rest := fun a b rest =>
    run_events_append z [a, b] rest
  refine ⟨fun u hu => ?_, fun u hu => enter_elapse_due z t u h hnow hu, fun u => ?_,
    fun t2 u ht2 hu => ?_, fun t2 u ht2 hu => ?_⟩
  · exact ⟨(enter_elapse_early z t u h hnow hu).1, (enter_elapse_early z t u h hnow hu).2.1⟩
  · rw [split3, hs2]
    simp only [run, List.foldl, step]
    rw [advance_of_no_pending s2 u hp2]
    exact ⟨hi2, hc2, hp2⟩
  · rw [split3, hs2, (enter_elapse_early s2 t2 u hp2 (by omega) hu).1, hi2]
  · rw [split3, hs2, (enter_elapse_due s2 t2 u hp2 (by omega) hu).1, hi2]

/-- The scenario of C9 on a fresh zone: enter at 0 and wait; enter at 0, leave
at 2000; enter again at 5000. -/
theorem dwell_scenarios_witness :
    (run (freshZone []) [.visibility 0 true, .elapse 2999]).interventions = [] ∧
    (run (freshZone []) [.visibility 0 true, .elapse 3000]).interventions = [] ++ [0 + 3000] ∧
    (run (freshZone []) [.visibility 0 true, .visibility (0 + 2000) false,
      .elapse 10000]).interventions = [] ∧
    (run (freshZone []) [.visibility 0 true, .visibility (0 + 2000) false,
      .visibility 5000 true, .elapse 7999]).interventions = [] ∧
    (run (freshZone []) [.visibility 0 true, .visibility (0 + 2000) false,
      .visibility 5000 true, .elapse 8000]).interventions = [] ++ [5000 + 3000] :=
  ⟨((dwell_scenarios (freshZone []) 0 rfl (Nat.le_refl 0)).1 2999 (by decide)).1,
   ((dwell_scenarios (freshZone []) 0 rfl (Nat.le_refl 0)).2.1 3000 (by decide)).1,
   ((dwell_scenarios (freshZone []) 0 rfl (Nat.le_refl 0)).2.2.1 10000).1,
   (dwell_scenarios (freshZone []) 0 rfl (Nat.le_refl 0)).2.2.2.1 5000 7999 (by decide)
     (by decide),
   (dwell_scenarios (freshZone []) 0 rfl (Nat.le_refl 0)).2.2.2.2 5000 8000 (by decide)
     (by decide)⟩

end NajdCampaignOS

namespace PerformanceManager

/-! ## Lazy loading -/

theorem notify_eq (s : LazyLoader) (e : Entry) :
    notify s e =
      if e.target ∈ s.observed ∧ e.isIntersecting = true then
        unobserve (loadComponent s e.target) e.target
      else s := by
  unfold notify
  by_cases h1 : e.target ∈ s.observed
  · by_cases h2 : e.isIntersecting = true
    · simp [h1, h2, observerCallback]
    · simp [h1, h2, observerCallback]
  · simp [h1]

theorem observe_loadCalls (s : LazyLoader) (el : Nat) : (observe s el).loadCalls = s.loadCalls := by
  unfold observe
  split <;> rfl

theorem observe_mem (s : LazyLoader) (el x : Nat) :
    x ∈ (observe s el).observed ↔ x ∈ s.observed ∨ x = el := by
  unfold observe
  split
  · next h =>
    constructor
    · exact Or.inl
    · rintro (hx | rfl)
      · exact hx
      · exact h
  · simp

theorem foldl_observe (triggers : List Nat) (s : LazyLoader) :
    (triggers.foldl observe s).loadCalls = s.loadCalls ∧
    ∀ x, x ∈ (triggers.foldl observe s).observed ↔ x ∈ s.observed ∨ x ∈ triggers := by
  induction triggers generalizing s with
  | nil => simp
  | cons a as ih =>
    obtain ⟨h1, h2⟩ := ih (observe s a)
    refine ⟨by rw [List.foldl_cons, h1, observe_loadCalls], fun x => ?_⟩
    rw [List.foldl_cons, h2, observe_mem, List.mem_cons]
    tauto

theorem init_waiting (triggers loaded : List Nat) (el : Nat) (h : el ∈ triggers) :
    Waiting (initLazyLoading triggers loaded) el := by
  obtain ⟨h1, h2⟩ := foldl_observe triggers { observed := [], loadCalls := [], loaded := loaded }
  exact ⟨(h2 el).2 (Or.inr h), by simp [initLazyLoading, h1]⟩

theorem notify_waiting_other (s : LazyLoader) (el : Nat) (e : Entry) (hs : Waiting s el)
    (he : ¬ (e.target = el ∧ e.isIntersecting = true)) : Waiting (notify s e) el := by
  rw [notify_eq]
  split
  · next hc =>
    have hne : e.target ≠ el := fun h => he ⟨h, hc.2⟩
    refine ⟨?_, ?_⟩
    · simp only [unobserve, loadComponent, List.mem_filter]
      exact ⟨hs.1, by simpa using fun h => hne h.symm⟩
    · simp only [unobserve, loadComponent, List.count_append]
      rw [hs.2, List.count_singleton]
      simp [hne]
  · exact hs

theorem notify_waiting_hit (s : LazyLoader) (el : Nat) (hs : Waiting s el) :
    Done (notify s ⟨el, true⟩) el := by
  rw [notify_eq]
  simp only [hs.1, and_self, if_true]
  refine ⟨?_, ?_⟩
  · simp [unobserve, loadComponent]
  · simp only [unobserve, loadComponent, List.count_append]
    rw [hs.2, List.count_singleton]
    simp

theorem notify_done (s : LazyLoader) (el : Nat) (e : Entry) (hs : Done s el) :
    Done (notify s e) el := by
  rw [notify_eq]
  split
  · next hc =>
    have hne : e.target ≠ el := fun h => hs.1 (h ▸ hc.1)
    refine ⟨?_, ?_⟩
    · simp only [unobserve, loadComponent, List.mem_filter]
      exact fun h => hs.1 h.1
    · simp only [unobserve, loadComponent, List.count_append]
      rw [hs.2, List.count_singleton]
      simp [hne]
  · exact hs

theorem run_done (entries : List Entry) (s : LazyLoader) (el : Nat) (hs : Done s el) :
    Done (runNotifications s entries) el := by
  induction entries generalizing s with
  | nil => exact hs
  | cons e es ih => exact ih (notify s e) (notify_done s el e hs)

theorem run_waiting (entries : List Entry) (s : LazyLoader) (el : Nat) (hs : Waiting s el) :
    ((∀ e ∈ entries, ¬ (e.target = el ∧ e.isIntersecting = true)) →
      Waiting (runNotifications s entries) el) ∧
    ((∃ e ∈ entries, e.target = el ∧ e.isIntersecting = true) →
      Done (runNotifications s entries) el) := by
  induction entries generalizing s with
  | nil =>
    refine ⟨fun _ => hs, ?_⟩
    rintro ⟨e, he, _⟩
    cases he
  | cons e es ih =>
    by_cases hq : e.target = el ∧ e.isIntersecting = true
    · have hd : Done (notify s e) el := by
        have : e = ⟨el, true⟩ := by
          cases e
          simp only [Entry.mk.injEq]
          exact hq
        rw [this]
        exact notify_waiting_hit s el hs
      refine ⟨fun hall => absurd hq (hall e (List.mem_cons_self _ _)), fun _ => ?_⟩
      exact run_done es (notify s e) el hd
    · have hw := notify_waiting_other s el e hs hq
      obtain ⟨ih1, ih2⟩ := ih (notify s e) hw
      refine ⟨fun hall => ih1 fun x hx => hall x (List.mem_cons_of_mem _ hx), ?_⟩
      rintro ⟨x, hx, hxq⟩
      rcases List.mem_cons.1 hx with rfl | hx
      · exact absurd hxq hq
      · exact ih2 ⟨x, hx, hxq⟩

theorem run_nothing_observed (entries : List Entry) (s : LazyLoader) (h : s.observed = []) :
    runNotifications s entries = s := by
  induction entries with
  | nil => rfl
  | cons e es ih =>
    show runNotifications (notify s e) es = s
    have : notify s e = s := by simp [notify, h]
    rw [this]
    exact ih

theorem runNotifications_append (s : LazyLoader) (xs ys : List Entry) :
    runNotifications s (xs ++ ys) = runNotifications (runNotifications s xs) ys := by
  simp [runNotifications, List.foldl_append]

/-- C5: for an element enrolled for lazy loading and any sequence of
visibility notifications from the observer, `loadComponent` runs for it zero
times when no notification about it is intersecting and exactly once
otherwise, on the first intersecting notification, whatever follows; with no
enrolled element nothing is ever loaded. -/
theorem lazy_load_once (triggers loaded : List Nat) (el : Nat) (hel : el ∈ triggers)
    (entries : List Entry) :
    ((∀ e ∈ entries, ¬ (e.target = el ∧ e.isIntersecting = true)) →
      (runNotifications (initLazyLoading triggers loaded) entries).loadCalls.count el = 0) ∧
    ((∃ e ∈ entries, e.target = el ∧ e.isIntersecting = true) →
      (runNotifications (initLazyLoading triggers loaded) entries).loadCalls.count el = 1) ∧
    (∀ before after : List Entry, entries = before ++ ⟨el, true⟩ :: after →
      (∀ e ∈ before, ¬ (e.target = el ∧ e.isIntersecting = true)) →
      (runNotifications (initLazyLoading triggers loaded) before).loadCalls.count el = 0 ∧
      (runNotifications (initLazyLoading triggers loaded)
        (before ++ [⟨el, true⟩])).loadCalls.count el = 1 ∧
      el ∉ (runNotifications (initLazyLoading triggers loaded)
        (before ++ [⟨el, true⟩])).observed) ∧
    (initLazyLoading [] loaded).loadCalls = [] ∧
    (runNotifications (initLazyLoading [] loaded) entries).loadCalls = [] := by
  have hw := init_waiting triggers loaded el hel
  obtain ⟨h1, h2⟩ := run_waiting entries _ el hw
  refine ⟨fun h => (h1 h).2, fun h => (h2 h).2, fun before after _ hb => ?_, rfl, ?_⟩
  · have hwb := (run_waiting before _ el hw).1 hb
    have hd : Done (runNotifications (initLazyLoading triggers loaded)
        (before ++ [⟨el, true⟩])) el := by
      rw [runNotifications_append]
      exact notify_waiting_hit _ el hwb
    exact ⟨hwb.2, hd.2, hd.1⟩
  · rw [run_nothing_observed entries _ rfl]
    rfl

/-- An instance of C5: element 7 is enrolled with element 3; it is reported
hidden, visible, hidden, visible; it is loaded once. -/
theorem lazy_load_once_witness :
    (runNotifications (initLazyLoading [3, 7] [])
      [⟨7, false⟩, ⟨7, true⟩, ⟨7, false⟩, ⟨7, true⟩]).loadCalls.count 7 = 1 ∧
    (runNotifications (initLazyLoading [3, 7] []) [⟨7, false⟩, ⟨3, true⟩]).loadCalls.count 7
      = 0 :=
  ⟨(lazy_load_once [3, 7] [] 7 (by decide)
      [⟨7, false⟩, ⟨7, true⟩, ⟨7, false⟩, ⟨7, true⟩]).2.1 ⟨⟨7, true⟩, by decide, by decide⟩,
   (lazy_load_once [3, 7] [] 7 (by decide) [⟨7, false⟩, ⟨3, true⟩]).1 (by decide)⟩

end PerformanceManager
